import Mathlib

/-!
Shallow embedding of the `bot` package of goplay-irc (an IRC bot that
evaluates Go snippets on the Go playground).

Strings are modelled as `List Char`; the network calls (the playground
compile/share service, the snippet HTTP fetch and the `imports.Process`
formatter) are modelled as oracle parameters describing the outcome of the
call, while everything the package computes itself (parsing, regex matching,
string formatting, branching) is embedded directly from the source.
-/

/-- Go strings, modelled as lists of characters. -/
abbrev Str := List Char

/-- Coerce a Lean string literal to the `List Char` representation. -/
def s2l (s : String) : Str := s.data

/-- Go `strings.HasPrefix(s, pre)`. -/
def goStartsWith (s pre : Str) : Bool := List.isPrefixOf pre s

/-- Go `strings.HasSuffix(s, suf)`. -/
def goEndsWith (s suf : Str) : Bool := List.isSuffixOf suf s

/-- Go `unicode.IsSpace`: the Unicode White_Space property
(U+0009–U+000D, U+0020, U+0085, U+00A0, U+1680, U+2000–U+200A,
U+2028, U+2029, U+202F, U+205F, U+3000). -/
def goIsSpace (c : Char) : Bool :=
  (0x9 ≤ c.toNat && c.toNat ≤ 0xD) || c.toNat == 0x20 || c.toNat == 0x85 ||
  c.toNat == 0xA0 || c.toNat == 0x1680 ||
  (0x2000 ≤ c.toNat && c.toNat ≤ 0x200A) || c.toNat == 0x2028 ||
  c.toNat == 0x2029 || c.toNat == 0x202F || c.toNat == 0x205F ||
  c.toNat == 0x3000

/-- Go `strings.TrimSpace`: drop leading and trailing White_Space. -/
def goTrimSpace (s : Str) : Str :=
  ((s.dropWhile goIsSpace).reverse.dropWhile goIsSpace).reverse

/-- Split `s` at the first occurrence of `sep`: `some (before, after)`,
or `none` when `sep` does not occur. Helper for `goSplitN`. -/
def breakAt (sep : Char) : Str → Option (Str × Str)
  | [] => none
  | c :: rest =>
    if c = sep then some ([], rest)
    else (breakAt sep rest).map (fun p => (c :: p.1, p.2))

/-- Go `strings.SplitN(s, string(sep), n)` for a single-character separator
and `n ≥ 0`: at most `n` pieces, the last piece holding the unsplit
remainder; `SplitN("", sep, n)` is `[""]` for `n ≥ 1`. -/
def goSplitN (sep : Char) : Nat → Str → List Str
  | 0, _ => []
  | 1, s => [s]
  | n + 2, s =>
    match breakAt sep s with
    | none => [s]
    | some (a, b) => a :: goSplitN sep (n + 1) b

/-- A value passed through Go's `...interface{}` to `fmt` formatting: the
package only ever passes strings (including errors rendered via `%s`) and
ints. -/
inductive GoVal
  | str (s : Str)
  | int (n : Int)
deriving DecidableEq, Repr

/-- How Go's `fmt` package describes a value in its `%!(EXTRA ...)`
diagnostic. -/
def goValDescribe : GoVal → Str
  | .str s => s2l "string=" ++ s
  | .int n => s2l "int=" ++ s2l (toString n)

/-- Comma-separated `%!(EXTRA ...)` payload. -/
def goExtraArgs : List GoVal → Str
  | [] => []
  | [v] => goValDescribe v
  | v :: vs => goValDescribe v ++ s2l ", " ++ goExtraArgs vs

/-- Go `fmt.Sprintf` restricted to the format verbs this package uses
(`%s`, `%d`, `%%`), including Go's diagnostics for missing, surplus and
mis-typed arguments. Other verbs do not occur in the package's format
strings. -/
def goSprintf : Str → List GoVal → Str
  | [], [] => []
  | [], v :: vs => s2l "%!(EXTRA " ++ goExtraArgs (v :: vs) ++ s2l ")"
  | '%' :: 's' :: rest, .str a :: as => a ++ goSprintf rest as
  | '%' :: 's' :: rest, .int n :: as =>
      s2l "%!s(int=" ++ s2l (toString n) ++ s2l ")" ++ goSprintf rest as
  | '%' :: 's' :: rest, [] => s2l "%!s(MISSING)" ++ goSprintf rest []
  | '%' :: 'd' :: rest, .int n :: as => s2l (toString n) ++ goSprintf rest as
  | '%' :: 'd' :: rest, .str a :: as =>
      s2l "%!d(string=" ++ a ++ s2l ")" ++ goSprintf rest as
  | '%' :: 'd' :: rest, [] => s2l "%!d(MISSING)" ++ goSprintf rest []
  | '%' :: '%' :: rest, as => '%' :: goSprintf rest as
  | c :: rest, as => c :: goSprintf rest as

/-- `[a-zA-Z0-9]`. -/
def isAlnum (c : Char) : Bool :=
  ('a' ≤ c && c ≤ 'z') || ('A' ≤ c && c ≤ 'Z') || ('0' ≤ c && c ≤ '9')

/-- Go `unicode.IsPrint`. On the ASCII range (the only range the theorems
below evaluate it on) Go's definition is exactly U+0020–U+007E; non-ASCII
code points are approximated as printable (no theorem in this file depends
on their classification). -/
def unicodeIsPrint (c : Char) : Bool :=
  if c.toNat < 0x80 then 0x20 ≤ c.toNat && c.toNat ≤ 0x7E else true

/-- `ExtractFirstLine` (bot.go): take the text before the first newline
(`strings.SplitN(s, "\n", 2)[0]`, always nonempty for `n ≥ 1`), trim
surrounding whitespace, and if any remaining rune is non-printable return
the fixed suppression message; otherwise return the text with all bell
characters removed (`strings.ReplaceAll(trimmed, "\x07", "")`, i.e. a
filter, since the replacement is empty). -/
def ExtractFirstLine (s : Str) : Str :=
  let trimmed := goTrimSpace ((goSplitN '\n' 2 s).headD [])
  if trimmed.any (fun c => !unicodeIsPrint c) then
    s2l "Output suppressed, non-printable characters detected."
  else
    trimmed.filter (fun c => c ≠ Char.ofNat 7)

/-- `8 ≤ |s|` and the first 8 characters are alphanumeric: an unanchored
match of `[a-zA-Z0-9]{8,}(?:\.go)?` starts at the head of `s`. (A match of
that pattern exists at a position exactly when 8 consecutive alphanumerics
start there: the `{8,}` upper range and the optional `.go` tail never
affect existence.) -/
def run8At (s : Str) : Bool := decide (8 ≤ s.length) && (s.take 8).all isAlnum

/-- `snippetIsValid` (bot.go): `snippetValidRe.MatchString(snippet)` with
`snippetValidRe = [a-zA-Z0-9]{8,}(?:\.go)?`. The pattern is unanchored, so
the match succeeds exactly when some position of the string starts 8
consecutive alphanumeric characters. -/
def snippetIsValid : Str → Bool
  | [] => false
  | c :: t => run8At (c :: t) || snippetIsValid t

/-- Anchored full match of `[a-zA-Z0-9]{8,}(?:\.go)?`: either the whole
string is ≥ 8 alphanumerics, or it is ≥ 8 alphanumerics followed by the
literal `.go`. -/
def idFullMatch (s : Str) : Bool :=
  (decide (8 ≤ s.length) && s.all isAlnum) ||
  (goEndsWith s (s2l ".go") && decide (8 ≤ s.length - 3) &&
    (s.take (s.length - 3)).all isAlnum)

/-- The part of `goplaygroundURIValidRe` after the optional scheme:
`play.golang.org/p/([a-zA-Z0-9]{8,}(?:\.go)?)$`, where the two `.` are
regex wildcards (matching any character except a newline) and the capture
group runs to the end of the string. Returns the captured id. -/
def hostPart (rest : Str) : Option Str :=
  match rest with
  | a :: b :: c :: d :: c1 :: e :: f :: g :: h :: i :: j :: c2 ::
    k :: l :: m :: n :: o :: p :: id =>
      if a = 'p' && b = 'l' && c = 'a' && d = 'y' && c1 ≠ '\n' &&
         e = 'g' && f = 'o' && g = 'l' && h = 'a' && i = 'n' && j = 'g' &&
         c2 ≠ '\n' && k = 'o' && l = 'r' && m = 'g' &&
         n = '/' && o = 'p' && p = '/' && idFullMatch id then some id
      else none
  | _ => none

/-- `goplaygroundURIValidRe.FindStringSubmatch` (bot.go), returning the
capture group: `^(?:https?://)?play.golang.org/p/([a-zA-Z0-9]{8,}(?:\.go)?)$`.
The alternatives of the optional scheme are mutually exclusive on any
input (a string starts with at most one of `https://`, `http://`, `play`),
so stripping the scheme deterministically is equivalent to the regex
search. -/
def goplayURIFind (s : Str) : Option Str :=
  if goStartsWith s (s2l "https://") then hostPart (s.drop 8)
  else if goStartsWith s (s2l "http://") then hostPart (s.drop 7)
  else hostPart s

/-- `extractPlaySnippetID` (bot.go): try the anchored playground-URL regex
first; otherwise accept the whole string when `snippetIsValid` holds;
otherwise fail with `invalid snippet`. -/
def extractPlaySnippetID (source : Str) : Except Str Str :=
  match goplayURIFind source with
  | some id => .ok id
  | none =>
    if snippetIsValid source then .ok source
    else .error (s2l "invalid snippet")

/-- Outcome of the single `http.Get` in `downloadPlaySnippet`: a transport
error, or a response with a status code and body. (A body-read error is
subsumed under `netError`; no theorem depends on that path.) -/
inductive FetchOutcome
  | netError (msg : Str)
  | response (status : Nat) (body : Str)
deriving DecidableEq, Repr

instance {ε α : Type} [DecidableEq ε] [DecidableEq α] : DecidableEq (Except ε α) :=
  fun x y =>
  match x, y with
  | .error a, .error b =>
      if h : a = b then .isTrue (congrArg Except.error h)
      else .isFalse (by intro he; injection he; exact h ‹_›)
  | .ok a, .ok b =>
      if h : a = b then .isTrue (congrArg Except.ok h)
      else .isFalse (by intro he; injection he; exact h ‹_›)
  | .error _, .ok _ => .isFalse (by intro he; injection he)
  | .ok _, .error _ => .isFalse (by intro he; injection he)

/-- One run of `downloadPlaySnippet`: `request` is the URL handed to
`http.Get` (`none` when the function returns before any network access),
`result` the returned `(string, error)` pair. -/
structure DownloadRun where
  request : Option Str
  result : Except Str Str
deriving DecidableEq, Repr

/-- `downloadPlaySnippet` (bot.go): resolve the reference via
`extractPlaySnippetID`; append `.go` to the id when it does not already
end in `.go`; issue exactly one `http.Get` on
`fmt.Sprintf("%s/p/%s", "https://play.golang.org", id)`; map status 200 to
the body, 404 to `snippet does not exist`, anything else to
`unknown error`. -/
def downloadPlaySnippet (source : Str) (fetch : FetchOutcome) : DownloadRun :=
  match extractPlaySnippetID source with
  | .error e => ⟨none, .error e⟩
  | .ok id =>
    let idg := if goEndsWith id (s2l ".go") then id else id ++ s2l ".go"
    let url := goSprintf (s2l "%s/p/%s")
      [.str (s2l "https://play.golang.org"), .str idg]
    ⟨some url,
      match fetch with
      | .netError e => .error e
      | .response status body =>
        if status = 200 then .ok body
        else if status = 404 then .error (s2l "snippet does not exist")
        else .error (s2l "unknown error")⟩

/-- The bare-identifier class exactly as the specification words it: a
string consisting entirely of at least 8 alphanumeric characters, with an
optional (nonempty, alphanumeric) file extension after a dot. Spec-side
definition, used to compare the spec's locator contract with the code. -/
def specBareIdent (s : Str) : Prop :=
  (8 ≤ s.length ∧ s.all isAlnum = true) ∨
  (∃ base ext, s = base ++ '.' :: ext ∧ 8 ≤ base.length ∧
    base.all isAlnum = true ∧ ext ≠ [] ∧ ext.all isAlnum = true)

/-- One output event of the playground service (`goplay.Event`). -/
structure GoplayEvent where
  Message : Str
  Kind : Str
  Delay : Int
deriving DecidableEq, Repr

/-- The playground compile response (`goplay.Response`): compile
diagnostics (empty when compilation succeeded) and the ordered output
events. -/
structure GoplayResponse where
  Errors : Str
  Events : List GoplayEvent
deriving DecidableEq, Repr

/-- The `(res, share, err)` triple returned by `Bot.runCode`. Every error
return in the source carries a nil response pointer, so the type needs no
error-with-response case; `compileAttempted` records whether the
`goplay.DefaultClient.Compile` call was reached before the failure. -/
inductive RunCodeResult
  | failure (msg : Str) (compileAttempted : Bool)
  | success (res : GoplayResponse) (share : Str)
deriving DecidableEq, Repr

/-- `Bot.runCode` (bot.go). The three remote calls are oracles:
`importsResult` the outcome of `imports.Process` (consulted only when
`doImports || doFormat`), `shareResult` the outcome of
`goplay.DefaultClient.Share`, `compileResult` the outcome of
`goplay.DefaultClient.Compile`. A `Share` failure is only logged: the
share value degrades to the fixed sentinel and execution proceeds. -/
def runCode (code : Str) (doShare doImports doFormat : Bool)
    (importsResult : Except Str Str) (shareResult : Except Str Str)
    (compileResult : Except Str GoplayResponse) : RunCodeResult :=
  let codeE : Except Str Str :=
    if doImports || doFormat then importsResult else .ok code
  match codeE with
  | .error e => .failure (s2l "could not format / imports source: " ++ e) false
  | .ok _ =>
    let share : Str :=
      if doShare then
        match shareResult with
        | .ok s => s
        | .error _ => s2l "Unable to create share link"
      else []
    match compileResult with
    | .error e => .failure (s2l "error from goplay: " ++ e) true
    | .ok res => .success res share

/-- The observable behaviour of one handler invocation: the rendered
texts passed to `reply`, in order, and whether `Bot.runCode` was invoked
(`ranCode`). `panicked` marks a run that ends in a Go runtime panic after
having sent the recorded replies. -/
inductive HandlerOutcome
  | done (replies : List Str) (ranCode : Bool)
  | panicked (replies : List Str) (ranCode : Bool)
deriving DecidableEq, Repr

/-- `Bot.EvalCmd` (bot.go), as a function of its argument string and the
outcome of its `runCode` call. When `runCode` fails, the source replies
`Error occurred: ...` but does not return: it falls through to
`len(res.Errors)` with `res` the nil response pointer, a nil-pointer
dereference — modelled as `panicked`. When the argument trims to empty,
`runCode` is never invoked. -/
def EvalCmd (args : Str) (outcome : RunCodeResult) : HandlerOutcome :=
  if goTrimSpace args = [] then
    .done [s2l "Cannot eval empty code"] false
  else
    match outcome with
    | .failure msg _ =>
        .panicked [goSprintf (s2l "Error occurred: %s") [.str msg]] true
    | .success res share =>
      if res.Errors ≠ [] then
        .done [goTrimSpace res.Errors] true
      else
        match res.Events with
        | [] => .done [s2l "Complete, but no prints"] true
        | e :: es =>
          let extraInfo : Str :=
            if (e :: es).length > 1 then
              goSprintf (s2l " (First line only. %d events returned)")
                [.int ((e :: es).length : Int)]
            else []
          .done [goSprintf (s2l "%s%s : %s")
            [.str share, .str extraInfo, .str (ExtractFirstLine e.Message)]] true

/-- `Bot.PlayRun` (bot.go), as a function of its argument string, the
fetch outcome of its `downloadPlaySnippet` call and the outcome of its
`runCode` call. On a download failure the source logs the error and
returns without calling `reply`. -/
def PlayRun (args : Str) (fetch : FetchOutcome) (run : RunCodeResult) :
    HandlerOutcome :=
  if args = [] then
    .done [s2l "Cannot parse an empty link / URL"] false
  else
    match (downloadPlaySnippet args fetch).result with
    | .error _ => .done [] false
    | .ok _ =>
      match run with
      | .failure msg _ =>
          .done [goSprintf (s2l "Unable to start compile: %s") [.str msg]] true
      | .success res _ =>
        if res.Errors ≠ [] then
          .done [s2l "Compile failed! " ++ goTrimSpace res.Errors] true
        else
          match res.Events with
          | [] => .done [s2l "Complete, but no prints"] true
          | e :: _ =>
              .done [goSprintf (s2l "Complete: %s")
                [.str (ExtractFirstLine e.Message)]] true

/-- What `Bot.onPrivmsg` does with one inbound line: ignore it, find no
registered command (return after lookup), invoke a handler, or hit a Go
runtime panic while parsing. -/
inductive Dispatch
  | ignored
  | noCommand
  | panicked
  | invoke (name rest : Str)
deriving DecidableEq, Repr

/-- `Bot.onPrivmsg` (bot.go) restricted to its dispatch decision, as a
function of the configured command prefix `pfx`, the connection's current
nick, the registered command names and the message text `msg.Params[1]`.
A line passing the addressing test via the nick branch is parsed with
`split := strings.SplitN(msgContent, " ", 3); command = split[1]`, which
panics (index out of range) when the line contains no space; in the prefix
branch `split[0][len(pfx):]` panics when the first token is shorter than
the prefix. `goSplitN` with `n ≥ 1` never returns `[]`; that match arm is
unreachable and mapped to the panic case. -/
def onPrivmsg (pfx nick : Str) (registered : List Str) (msgContent : Str) :
    Dispatch :=
  if !goStartsWith msgContent pfx && !goStartsWith msgContent nick then
    .ignored
  else
    let parsed : Option (Str × Str) :=
      if goStartsWith msgContent nick then
        match goSplitN ' ' 3 msgContent with
        | _ :: c :: r :: _ => some (c, r)
        | [_, c] => some (c, [])
        | _ => none
      else
        match goSplitN ' ' 2 msgContent with
        | s0 :: rest =>
          if pfx.length ≤ s0.length then some (s0.drop pfx.length, rest.headD [])
          else none
        | [] => none
    match parsed with
    | none => .panicked
    | some (c, r) => if c ∈ registered then .invoke c r else .noCommand

/-- A message handed to the transport: `Privmsg(target, text)` sends
`text` verbatim; `Privmsgf(target, format, args)` sends
`Sprintf(format, args...)`. -/
inductive Sent
  | privmsg (target text : Str)
  | privmsgf (target format : Str) (args : List GoVal)
deriving DecidableEq, Repr

/-- The `replyFunc` closure built in `Bot.onPrivmsg` (bot.go): with no
positional arguments the text goes out verbatim via `Privmsg`; with
arguments it goes out via `Privmsgf` with the format string
`fmt.Sprintf("(%s) %s", sourceNick, s)`. -/
def replyFunc (replyTarget sourceNick : Str) (s : Str) (a : List GoVal) :
    Sent :=
  if a.length = 0 then .privmsg replyTarget s
  else .privmsgf replyTarget
    (goSprintf (s2l "(%s) %s") [.str sourceNick, .str s]) a

/-- The line of text a `Sent` message puts on the wire. -/
def sentText : Sent → Str
  | .privmsg _ t => t
  | .privmsgf _ f a => goSprintf f a

/-! ## Helper lemmas -/

/-- A character other than `%` at the head of a format string is copied
verbatim. -/
theorem goSprintf_cons (c : Char) (rest : Str) (as : List GoVal) (hc : c ≠ '%') :
    goSprintf (c :: rest) as = c :: goSprintf rest as := by
  rw [goSprintf.eq_def]
  split <;> simp_all

/-- A verb-free literal prefix of a format string is copied verbatim. -/
theorem goSprintf_lit (p : Str) (hp : ('%' : Char) ∉ p) (f : Str) (a : List GoVal) :
    goSprintf (p ++ f) a = p ++ goSprintf f a := by
  induction p with
  | nil => simp
  | cons c t ih =>
    have hc : c ≠ '%' := by rintro rfl; exact hp (List.mem_cons_self _ _)
    have ht : ('%' : Char) ∉ t := fun h => hp (List.mem_cons_of_mem _ h)
    rw [List.cons_append, goSprintf_cons c (t ++ f) a hc, ih ht, List.cons_append]

/-- A successful match of the host-and-path part of the playground URL
pattern requires a `/` somewhere in the input. -/
theorem hostPart_slash {rest id : Str} (h : hostPart rest = some id) :
    '/' ∈ rest := by
  unfold hostPart at h
  split at h
  · split at h <;> simp_all
  · simp at h

/-- A successful match of the full playground URL pattern requires a `/`
somewhere in the input. -/
theorem goplayURIFind_slash {s id : Str} (h : goplayURIFind s = some id) :
    '/' ∈ s := by
  unfold goplayURIFind at h
  split at h
  · exact List.mem_of_mem_drop (hostPart_slash h)
  · split at h
    · exact List.mem_of_mem_drop (hostPart_slash h)
    · exact hostPart_slash h

/-- Evaluation of the `fmt.Sprintf("%s/p/%s", ...)` call of
`downloadPlaySnippet` on the fixed host and a symbolic id. -/
theorem sprintf_url (b : Str) :
    goSprintf (s2l "%s/p/%s") [.str (s2l "https://play.golang.org"), .str b] =
      s2l "https://play.golang.org/p/" ++ b := by
  show s2l "https://play.golang.org" ++ ('/' :: 'p' :: '/' :: (b ++ [])) =
    s2l "https://play.golang.org/p/" ++ b
  simp only [List.append_nil]
  rfl

/-- `strings.TrimSpace` of an all-whitespace string is empty. -/
theorem goTrimSpace_all_space (s : Str) (h : s.all goIsSpace = true) :
    goTrimSpace s = [] := by
  unfold goTrimSpace
  have h1 : s.dropWhile goIsSpace = [] :=
    List.dropWhile_eq_nil_iff.mpr (fun x hx => List.all_eq_true.mp h x hx)
  simp [h1]

/-! ## Claims -/

/-- Claim C1: the claim states that when `runCode` returns a non-nil error
to `EvalCmd`, the handler replies once and returns without dereferencing
the nil response. The code violates this: after `reply("Error occurred: ...")`
there is no `return`, so control falls through to `len(res.Errors)` on the
nil response pointer and the goroutine panics. This theorem evaluates the
embedded handler at any failing `runCode` outcome: exactly one reply is
sent and then the run ends in a panic instead of returning. -/
theorem EvalCmd_runCode_error_panics (msg : Str) (compiled : Bool) :
    EvalCmd (s2l "x := 1") (.failure msg compiled) =
      .panicked [s2l "Error occurred: " ++ msg] true := by
  show HandlerOutcome.panicked [s2l "Error occurred: " ++ (msg ++ [])] true = _
  simp

/-- Claim C2: the claim states that every invoked handler replies at least
once on every control path, including a failed snippet download in
`PlayRun`. The code violates this: the inbound line `~playrun !?` resolves
to the registered `playrun` command, `downloadPlaySnippet` fails before
any network request (`request = none`), and `PlayRun` logs the error and
returns with an empty reply list, whatever the would-be fetch and run
outcomes. -/
theorem PlayRun_download_failure_silent (fetch : FetchOutcome) (run : RunCodeResult) :
    onPrivmsg (s2l "~") (s2l "goplay")
      [s2l "eval", s2l "playrun", s2l "play", s2l "help"] (s2l "~playrun !?")
      = .invoke (s2l "playrun") (s2l "!?") ∧
    PlayRun (s2l "!?") fetch run = .done [] false ∧
    (downloadPlaySnippet (s2l "!?") fetch).request = none := by
  exact ⟨by decide, rfl, rfl⟩

/-- Claim C3: the claim states that a reference that is neither a
playground URL nor a bare identifier yields the unresolvable-reference
error with zero fetches. The code violates this: `snippetValidRe` is
unanchored, so `"!!abcdefgh"` — not a bare identifier (it is not entirely
alphanumeric) and not a URL — is accepted by `snippetIsValid`, resolved to
itself, and a GET for `https://play.golang.org/p/!!abcdefgh.go` is
issued. -/
theorem downloadPlaySnippet_unresolvable_still_fetches :
    ¬ specBareIdent (s2l "!!abcdefgh") ∧
    goplayURIFind (s2l "!!abcdefgh") = none ∧
    extractPlaySnippetID (s2l "!!abcdefgh") = .ok (s2l "!!abcdefgh") ∧
    (downloadPlaySnippet (s2l "!!abcdefgh") (.netError [])).request =
      some (s2l "https://play.golang.org/p/!!abcdefgh.go") := by
  refine ⟨?_, by decide, by decide, by decide⟩
  rintro (⟨-, hall⟩ | ⟨base, ext, heq, -, -, -, -⟩)
  · exact absurd hall (by decide)
  · have hdot : '.' ∈ s2l "!!abcdefgh" := by rw [heq]; simp
    exact absurd hdot (by decide)

/-- Claim C4, counterexample: the claim states that bell characters are
stripped before the non-printable check, so a message whose only
non-printable characters are bells renders as its text with the bells
removed. On the code, `"a\x07b"` renders as the suppression message, not
as `"ab"`: the check runs first and the bell is non-printable. -/
theorem ExtractFirstLine_bell_cex :
    ExtractFirstLine (s2l "a\x07b") =
      s2l "Output suppressed, non-printable characters detected." ∧
    ¬ ExtractFirstLine (s2l "a\x07b") = s2l "ab" := by decide

/-- Claim C4, amended: the rendered first line is produced by truncating
at the first line break, trimming surrounding whitespace, and then — with
the bell still present — checking for non-printable characters; any bell
remaining after trimming therefore forces the fixed output-suppressed
message (the subsequent bell-strip never yields visible bell-free text). -/
theorem ExtractFirstLine_bell_suppressed (s : Str)
    (h : Char.ofNat 7 ∈ goTrimSpace ((goSplitN '\n' 2 s).headD [])) :
    ExtractFirstLine s =
      s2l "Output suppressed, non-printable characters detected." := by
  have hany : (goTrimSpace ((goSplitN '\n' 2 s).headD [])).any
      (fun c => !unicodeIsPrint c) = true :=
    List.any_eq_true.mpr ⟨_, h, by decide⟩
  unfold ExtractFirstLine
  simp only [hany]
  rfl

theorem ExtractFirstLine_bell_suppressed_witness :
    Char.ofNat 7 ∈ goTrimSpace ((goSplitN '\n' 2 (s2l "ding\x07")).headD []) ∧
    ExtractFirstLine (s2l "ding\x07") =
      s2l "Output suppressed, non-printable characters detected." :=
  ⟨by decide, ExtractFirstLine_bell_suppressed (s2l "ding\x07") (by decide)⟩

/-- Claim C5, counterexample: the claim states the reply for 3 events
`["line1\nhidden", "e2", "e3"]` is the first line followed by the
event-count note, prefixed by the share link. The code renders the note
between the share link and the first line with a `" : "` separator:
`"<share> (First line only. 3 events returned) : line1"`, which matches
neither reading of the claimed shape (with or without a space after the
share link). -/
theorem EvalCmd_three_events_cex :
    EvalCmd (s2l "x")
      (.success ⟨[], [⟨s2l "line1\nhidden", [], 0⟩, ⟨s2l "e2", [], 0⟩,
        ⟨s2l "e3", [], 0⟩]⟩ (s2l "SHARE"))
      = .done [s2l "SHARE (First line only. 3 events returned) : line1"] true ∧
    ¬ (s2l "SHARE (First line only. 3 events returned) : line1" =
        s2l "SHAREline1 (First line only. 3 events returned)") ∧
    ¬ (s2l "SHARE (First line only. 3 events returned) : line1" =
        s2l "SHARE line1 (First line only. 3 events returned)") := by decide

/-- Claim C5, amended: for an `ExecutionResult` with empty compile errors
and the 3 events `["line1\nhidden", "e2", "e3"]`, the eval handler's reply
is the share value (or its unavailable placeholder), then the parenthetical
note `" (First line only. 3 events returned)"`, then `" : "`, then the
first line of the first event. -/
theorem EvalCmd_three_events_render (share : Str) :
    EvalCmd (s2l "x")
      (.success ⟨[], [⟨s2l "line1\nhidden", [], 0⟩, ⟨s2l "e2", [], 0⟩,
        ⟨s2l "e3", [], 0⟩]⟩ share)
      = .done [share ++ s2l " (First line only. 3 events returned) : line1"]
          true := by
  show HandlerOutcome.done
    [share ++ (s2l " (First line only. 3 events returned)" ++
      (' ' :: ':' :: ' ' :: (s2l "line1" ++ [])))] true = _
  simp only [List.append_nil]
  rfl

/-- Claim C6: the claim states that a line that merely begins with the
agent's name without following whitespace — in particular a line equal to
the name alone — is handled without invoking a handler and without
crashing. The code violates this: such a line passes the addressing test
(`strings.HasPrefix` checks the name only, not the following whitespace),
and then `strings.SplitN(msgContent, " ", 3)` yields a single token, so
`split[1]` panics with an index-out-of-range error. -/
theorem onPrivmsg_bare_nick_panics :
    onPrivmsg (s2l "~") (s2l "goplay")
      [s2l "eval", s2l "playrun", s2l "play", s2l "help"] (s2l "goplay")
      = .panicked := by decide

/-- Claim C7: for every argument string consisting only of whitespace
(including the empty string), `EvalCmd` replies with the fixed empty-code
rejection message and returns without invoking `runCode` — hence without
the formatter, the share call or the execution service — whatever outcome
that call would have had. -/
theorem EvalCmd_whitespace_args_rejected (args : Str) (outcome : RunCodeResult)
    (h : args.all goIsSpace = true) :
    EvalCmd args outcome = .done [s2l "Cannot eval empty code"] false := by
  unfold EvalCmd
  rw [goTrimSpace_all_space args h]
  simp

theorem EvalCmd_whitespace_args_rejected_witness :
    (s2l " \t ").all goIsSpace = true ∧
    EvalCmd (s2l " \t ") (.failure (s2l "never") false) =
      .done [s2l "Cannot eval empty code"] false :=
  ⟨by decide, EvalCmd_whitespace_args_rejected (s2l " \t ")
    (.failure (s2l "never") false) (by decide)⟩

/-- Claim C8: for every reference string in the bare-identifier class
(entirely alphanumeric of length at least 8, with an optional file
extension), the locator reaches its single `http.Get` and the requested
URL is the identifier with a `.go` suffix appended exactly when the
identifier does not already end in `.go`. -/
theorem downloadPlaySnippet_bare_ident_fetch (source : Str) (f : FetchOutcome)
    (h : specBareIdent source) :
    (downloadPlaySnippet source f).request =
      some (s2l "https://play.golang.org/p/" ++
        (if goEndsWith source (s2l ".go") then source
         else source ++ s2l ".go")) := by
  have hchar : ∀ c ∈ source, isAlnum c = true ∨ c = '.' := by
    rcases h with ⟨hlen, hall⟩ | ⟨base, ext, heq, hlen, hbase, hne, hext⟩
    · intro c hc; exact Or.inl (List.all_eq_true.mp hall c hc)
    · subst heq
      intro c hc
      rcases List.mem_append.mp hc with hc | hc
      · exact Or.inl (List.all_eq_true.mp hbase c hc)
      · rcases List.mem_cons.mp hc with rfl | hc
        · exact Or.inr rfl
        · exact Or.inl (List.all_eq_true.mp hext c hc)
  have hslash : '/' ∉ source := by
    intro hmem
    rcases hchar '/' hmem with h1 | h1
    · exact absurd h1 (by decide)
    · exact absurd h1 (by decide)
  have huri : goplayURIFind source = none := by
    cases hu : goplayURIFind source with
    | none => rfl
    | some id => exact absurd (goplayURIFind_slash hu) hslash
  have hrun : run8At source = true := by
    rcases h with ⟨hlen, hall⟩ | ⟨base, ext, heq, hlen, hbase, hne, hext⟩
    · unfold run8At
      simp only [Bool.and_eq_true, decide_eq_true_eq, List.all_eq_true]
      exact ⟨hlen, fun c hc =>
        List.all_eq_true.mp hall c (List.take_subset 8 source hc)⟩
    · subst heq
      unfold run8At
      simp only [Bool.and_eq_true, decide_eq_true_eq, List.all_eq_true]
      constructor
      · simp only [List.length_append, List.length_cons]; omega
      · rw [List.take_append_of_le_length hlen]
        exact fun c hc =>
          List.all_eq_true.mp hbase c (List.take_subset 8 base hc)
  have hvalid : snippetIsValid source = true := by
    cases hs : source with
    | nil => rw [hs] at hrun; simp [run8At] at hrun
    | cons c t => rw [hs] at hrun; simp [snippetIsValid, hrun]
  have hex : extractPlaySnippetID source = .ok source := by
    unfold extractPlaySnippetID
    rw [huri, hvalid]
    simp
  unfold downloadPlaySnippet
  rw [hex]
  simp [sprintf_url]

theorem downloadPlaySnippet_bare_ident_fetch_witness :
    specBareIdent (s2l "abcdefgh") ∧
    (downloadPlaySnippet (s2l "abcdefgh") (.netError [])).request =
      some (s2l "https://play.golang.org/p/" ++
        (if goEndsWith (s2l "abcdefgh") (s2l ".go") then s2l "abcdefgh"
         else s2l "abcdefgh" ++ s2l ".go")) :=
  ⟨Or.inl ⟨by decide, by decide⟩,
    downloadPlaySnippet_bare_ident_fetch (s2l "abcdefgh") (.netError [])
      (Or.inl ⟨by decide, by decide⟩)⟩

/-- Claim C9: with share-link creation enabled and the formatter
succeeding, the result of `runCode` is determined by the compile call
alone: a share failure never produces a failure outcome and never
prevents the compile submission (the compile-attempted flag is set even
when compilation itself then fails), the share value degrading to the
sentinel `"Unable to create share link"`, while a successful share call
passes the obtained link through. -/
theorem runCode_share_failure_nonfatal (code bytes : Str)
    (doImports doFormat : Bool) (sres : Except Str Str)
    (cres : Except Str GoplayResponse) :
    runCode code true doImports doFormat (.ok bytes) sres cres =
      match cres with
      | .error e => .failure (s2l "error from goplay: " ++ e) true
      | .ok res => .success res
          (match sres with
           | .ok s => s
           | .error _ => s2l "Unable to create share link") := by
  unfold runCode
  cases doImports <;> cases doFormat <;> cases sres <;> cases cres <;> rfl

/-- Claim C10: a reply issued with no positional arguments is sent
verbatim via `Privmsg`; a reply issued with at least one positional
argument is sent via `Privmsgf` and the resulting wire text is the
formatted text prefixed with `"(<nick>) "` (stated for nicks containing
no `%`, which IRC nicknames never do). -/
theorem replyFunc_sender_prefix_shape (target nick s : Str) (a : List GoVal)
    (hnick : ('%' : Char) ∉ nick) :
    (a = [] → replyFunc target nick s a = .privmsg target s) ∧
    (a ≠ [] →
      sentText (replyFunc target nick s a) =
        ('(' :: (nick ++ [')', ' '])) ++ goSprintf s a ∧
      ('(' :: (nick ++ [')', ' '])) <+: sentText (replyFunc target nick s a)) := by
  constructor
  · rintro rfl; rfl
  · intro ha
    have hlen : ¬ a.length = 0 := by simpa using ha
    have hfmt : goSprintf (s2l "(%s) %s") [.str nick, .str s]
        = ('(' :: (nick ++ [')', ' '])) ++ s := by
      show '(' :: (nick ++ (')' :: ' ' :: (s ++ []))) =
        ('(' :: (nick ++ [')', ' '])) ++ s
      simp
    have hp : ('%' : Char) ∉ ('(' :: (nick ++ [')', ' '])) := by
      intro hmem
      rcases List.mem_cons.mp hmem with h1 | h2
      · exact absurd h1 (by decide)
      · rcases List.mem_append.mp h2 with h3 | h4
        · exact hnick h3
        · exact absurd h4 (by decide)
    have hsent : sentText (replyFunc target nick s a)
        = ('(' :: (nick ++ [')', ' '])) ++ goSprintf s a := by
      unfold replyFunc
      rw [if_neg hlen]
      show goSprintf (goSprintf (s2l "(%s) %s") [.str nick, .str s]) a = _
      rw [hfmt, goSprintf_lit _ hp s a]
    exact ⟨hsent, hsent ▸ List.prefix_append _ _⟩

theorem replyFunc_sender_prefix_shape_witness :
    ('%' : Char) ∉ s2l "dave" ∧
    sentText (replyFunc (s2l "#chan") (s2l "dave") (s2l "run %s")
      [.str (s2l "ok")]) = s2l "(dave) run ok" := by
  refine ⟨by decide, ?_⟩
  have h := (replyFunc_sender_prefix_shape (s2l "#chan") (s2l "dave")
    (s2l "run %s") [.str (s2l "ok")] (by decide)).2 (by decide)
  rw [h.1]
  decide
